import Mathlib

/-
Verification of the S3 indexed-bucket event handler Lambda
(src/lambda/index.mjs, the revision with getItem / createItem / updateItem /
handleUpload / handleDelete / handler).

The DynamoDB table is modelled as a per-key write history (newest write
first), so that a strongly consistent read (ConsistentRead = true, as the
code requests) returns the newest write while an eventually consistent read
may observe any older version, selected by a staleness oracle.  Each
DynamoDB send may throw a transport error, driven by a fault oracle (a list
of booleans consumed one per send); every send is also recorded in an
operation trace so that "no store operation happened" is expressible.
`Date.now()` is modelled as the invocation's clock value `now`; JavaScript
string built-ins (`startsWith`, `endsWith`, `replace(/\+/g, ' ')`,
`decodeURIComponent`) are modelled at the character-list level, with
`decodeURIComponent` decoding `%XX` byte escapes and failing on a malformed
escape, as the JS built-in throws URIError there.
-/

/-- One row of the index table: the attribute set written by the Lambda
(filename is the hash key; size, created, last_modified are numeric). -/
structure IndexRecord where
  filename : String
  size : Nat
  created : Nat
  last_modified : Nat
deriving DecidableEq

/-- A DynamoDB request observed on the wire, for the operation trace. -/
inductive StoreOp where
  | getOp (tableName : String) (consistentRead : Bool) (key : String)
  | putOp (tableName : String) (item : IndexRecord)
  | deleteOp (tableName : String) (key : String)
deriving DecidableEq

/-- The key that a store operation addresses. -/
def StoreOp.opKey : StoreOp → String
  | .getOp _ _ k => k
  | .putOp _ item => item.filename
  | .deleteOp _ k => k

/-- Transport-level failure of a DynamoDB call (timeout, throttling, ...). -/
inductive StoreError where
  | storeTransportError
deriving DecidableEq

/-- The DynamoDB world: per-key write history (newest first; `none` is a
delete tombstone; the empty history means the key was never written), the
fault oracle consumed one entry per send, and the trace of sends issued. -/
structure DDB where
  hist : String → List (Option IndexRecord)
  faults : List Bool
  ops : List StoreOp

/-- The value of a key after its most recent write (`none` when the key was
never written or its newest write is a delete). -/
def latestWrite (h : String → List (Option IndexRecord)) (k : String) :
    Option IndexRecord :=
  (h k).headD none

/-- The request shape of GetItemCommand, as the Lambda builds it. -/
structure GetItemInput where
  tableName : String
  consistentRead : Bool
  key : String
deriving DecidableEq

/-- The response shape of GetItemCommand: the `Item` member is present
exactly when the key currently has a record. -/
structure GetItemResponse where
  Item : Option IndexRecord
deriving DecidableEq

/-- The request shape of PutItemCommand, as the Lambda builds it. -/
structure PutItemInput where
  tableName : String
  item : IndexRecord
  returnValues : String
deriving DecidableEq

/-- The request shape of DeleteItemCommand, as the Lambda builds it. -/
structure DeleteItemInput where
  tableName : String
  key : String
deriving DecidableEq

/-- DynamoDB semantics of `ddb.send(new GetItemCommand input)`: consume one
fault-oracle entry, record the request, and either throw a transport error
or answer.  A consistent read answers with the newest write; an eventually
consistent read answers with the version `stale` writes back (falling off
the end of the history means the key's pre-creation absence). -/
def sendGetItem (w : DDB) (stale : Nat) (inp : GetItemInput) :
    Except (StoreError × DDB) (GetItemResponse × DDB) :=
  let w' : DDB :=
    { w with
      faults := w.faults.tail
      ops := w.ops ++ [StoreOp.getOp inp.tableName inp.consistentRead inp.key] }
  if w.faults.headD false then
    .error (.storeTransportError, w')
  else
    .ok (⟨if inp.consistentRead then latestWrite w.hist inp.key
          else (w.hist inp.key).getD stale none⟩, w')

/-- DynamoDB semantics of `ddb.send(new PutItemCommand input)`: on success
the item becomes the newest write of its own filename key. -/
def sendPutItem (w : DDB) (inp : PutItemInput) :
    Except (StoreError × DDB) DDB :=
  let w' : DDB :=
    { w with
      faults := w.faults.tail
      ops := w.ops ++ [StoreOp.putOp inp.tableName inp.item] }
  if w.faults.headD false then
    .error (.storeTransportError, w')
  else
    .ok { w' with
          hist := fun k =>
            if k = inp.item.filename then some inp.item :: w.hist k
            else w.hist k }

/-- DynamoDB semantics of `ddb.send(new DeleteItemCommand input)`: on
success a delete tombstone becomes the newest write of the key. -/
def sendDeleteItem (w : DDB) (inp : DeleteItemInput) :
    Except (StoreError × DDB) DDB :=
  let w' : DDB :=
    { w with
      faults := w.faults.tail
      ops := w.ops ++ [StoreOp.deleteOp inp.tableName inp.key] }
  if w.faults.headD false then
    .error (.storeTransportError, w')
  else
    .ok { w' with
          hist := fun k =>
            if k = inp.key then none :: w.hist k
            else w.hist k }

/-- The result shape returned by `getItem` in the Lambda:
`{ fileExists, data }`. -/
structure GetItemResult where
  fileExists : Bool
  data : Option IndexRecord
deriving DecidableEq

/-- The GetItemCommand input `getItem` constructs: table name from the
environment, `ConsistentRead: true`, and the filename as the key. -/
def getItemInput (tableName filename : String) : GetItemInput :=
  { tableName := tableName, consistentRead := true, key := filename }

/-- `getItem`: look up `filename`; `fileExists` mirrors `'Item' in response`
and `data` is the cleaned-up field set when the entry was found. -/
def getItem (tableName : String) (w : DDB) (stale : Nat) (filename : String) :
    Except (StoreError × DDB) (GetItemResult × DDB) :=
  match sendGetItem w stale (getItemInput tableName filename) with
  | .error e => .error e
  | .ok (response, w') =>
    let fileExists := response.Item.isSome
    let data : Option IndexRecord :=
      match response.Item with
      | some item =>
        some { filename := item.filename, created := item.created,
               size := item.size, last_modified := item.last_modified }
      | none => none
    .ok ({ fileExists := fileExists, data := data }, w')

/-- `createItem`: put a brand-new full record for a newly uploaded file,
created and last_modified both stamped with the invocation's `Date.now()`. -/
def createItem (tableName : String) (w : DDB) (filename : String)
    (filesize now : Nat) : Except (StoreError × DDB) DDB :=
  sendPutItem w
    { tableName := tableName
      item := { filename := filename, size := filesize,
                created := now, last_modified := now }
      returnValues := "NONE" }

/-- `updateItem`: put a full replacement record for a modified file,
carrying `created` forward from the existing entry data and stamping
`last_modified` with the invocation's `Date.now()`. -/
def updateItem (tableName : String) (w : DDB) (filename : String)
    (filesize : Nat) (data : IndexRecord) (now : Nat) :
    Except (StoreError × DDB) DDB :=
  sendPutItem w
    { tableName := tableName
      item := { filename := filename, size := filesize,
                created := data.created, last_modified := now }
      returnValues := "NONE" }

/-- `handleUpload`: check whether the item already exists, then create a new
entry or update the existing one.  The `fileExists && data = none` branch is
unreachable from `getItem` (it would be a TypeError in the JS, caught by the
handler's catch with no write issued, hence modelled as no write). -/
def handleUpload (tableName : String) (w : DDB) (stale : Nat)
    (filename : String) (filesize now : Nat) :
    Except (StoreError × DDB) DDB :=
  match getItem tableName w stale filename with
  | .error e => .error e
  | .ok (r, w') =>
    if !r.fileExists then
      createItem tableName w' filename filesize now
    else
      match r.data with
      | some d => updateItem tableName w' filename filesize d now
      | none => .ok w'

/-- `handleDelete`: unconditionally delete any existing entry for the
filename. -/
def handleDelete (tableName : String) (w : DDB) (filename : String) :
    Except (StoreError × DDB) DDB :=
  sendDeleteItem w { tableName := tableName, key := filename }

/-- JavaScript `String.prototype.startsWith`, at the character level. -/
def jsStartsWith (s p : String) : Bool :=
  p.data.isPrefixOf s.data

/-- JavaScript `String.prototype.endsWith`, at the character level. -/
def jsEndsWith (s p : String) : Bool :=
  p.data.isSuffixOf s.data

/-- `key.replace(/\+/g, ' ')`: every `+` becomes a space. -/
def plusToSpace (s : String) : String :=
  ⟨s.data.map (fun c => if c = '+' then ' ' else c)⟩

/-- Numeric value of one hexadecimal digit, if the character is one
(0-9, A-F, a-f, by code point). -/
def hexVal (c : Char) : Option Nat :=
  let n := c.toNat
  if 48 ≤ n ∧ n ≤ 57 then some (n - 48)
  else if 65 ≤ n ∧ n ≤ 70 then some (n - 55)
  else if 97 ≤ n ∧ n ≤ 102 then some (n - 87)
  else none

/-- JavaScript `decodeURIComponent`, modelled at byte granularity: each
`%XX` escape with two hex digits decodes to the character with code `XX`,
any other character passes through, and a `%` not followed by two hex
digits is a URIError (`none`). -/
def percentDecode : List Char → Option (List Char)
  | [] => some []
  | '%' :: c1 :: c2 :: rest =>
    match hexVal c1, hexVal c2 with
    | some h1, some h2 =>
      match percentDecode rest with
      | some cs => some (Char.ofNat (16 * h1 + h2) :: cs)
      | _ => none
    | _, _ => none
  | '%' :: _ :: [] => none
  | ['%'] => none
  | c :: rest =>
    match percentDecode rest with
    | some cs => some (c :: cs)
    | none => none

/-- The key normalisation in the handler:
`decodeURIComponent(event.s3.object.key.replace(/\+/g, ' '))`; `none` is an
uncaught URIError. -/
def decodeKey (raw : String) : Option String :=
  match percentDecode (plusToSpace raw).data with
  | some cs => some ⟨cs⟩
  | none => none

/-- The `s3.object` member of an event record: escaped key and byte size. -/
structure S3ObjectInfo where
  key : String
  size : Nat
deriving DecidableEq

/-- The `s3.bucket` member of an event record. -/
structure S3BucketInfo where
  name : String
deriving DecidableEq

/-- The `s3` member of an event record. -/
structure S3Info where
  bucket : S3BucketInfo
  object : S3ObjectInfo
deriving DecidableEq

/-- One change record of an S3 bucket notification. -/
structure EventRecord where
  eventName : String
  s3 : S3Info
deriving DecidableEq

/-- The notification payload handed to the Lambda: a batch of records. -/
structure S3Event where
  Records : List EventRecord
deriving DecidableEq

/-- Errors the handler raises before its try block, which therefore
propagate uncaught to the invoking transport: a TypeError from reading the
fields of `data.Records[0]` when there is no record, and a URIError from
`decodeURIComponent` on a malformed key. -/
inductive UncaughtError where
  | typeError
  | uriError
deriving DecidableEq

/-- A completed handler invocation: the final store world and whether the
catch block logged an error via `console.error`. -/
structure HandlerOutcome where
  world : DDB
  loggedError : Bool

/-- The Lambda entry point `handler`.  Record extraction and key decoding
happen before the try block; the try/catch wraps only the switch, so
errors thrown there (unsupported action, store transport errors) are
caught and logged while the invocation completes normally. -/
def handler (tableName : String) (data : S3Event) (w : DDB)
    (stale now : Nat) : Except UncaughtError HandlerOutcome :=
  match data.Records.head? with
  | none => .error .typeError
  | some event =>
    let eventName := event.eventName
    match decodeKey event.s3.object.key with
    | none => .error .uriError
    | some key =>
      let size := event.s3.object.size
      if jsEndsWith key "/" then
        .ok { world := w, loggedError := false }
      else if jsStartsWith eventName "ObjectCreated" then
        match handleUpload tableName w stale key size now with
        | .ok w2 => .ok { world := w2, loggedError := false }
        | .error (_, w2) => .ok { world := w2, loggedError := true }
      else if jsStartsWith eventName "ObjectRemove" then
        match handleDelete tableName w key with
        | .ok w2 => .ok { world := w2, loggedError := false }
        | .error (_, w2) => .ok { world := w2, loggedError := true }
      else
        .ok { world := w, loggedError := true }

/-- One serial invocation of the handler, as the surrounding sequence sees
it: an uncaught error aborts the invocation before any store call, so the
world is unchanged in that case. -/
structure Invocation where
  data : S3Event
  stale : Nat
  now : Nat

/-- Run one invocation and keep the resulting world. -/
def runInvocation (tableName : String) (w : DDB) (inv : Invocation) : DDB :=
  match handler tableName inv.data w inv.stale inv.now with
  | .ok out => out.world
  | .error _ => w

/-- Run a serial sequence of invocations. -/
def runAll (tableName : String) (w : DDB) (invs : List Invocation) : DDB :=
  invs.foldl (runInvocation tableName) w

/-- The record-state invariant at clock bound `c`: every current record has
`created ≤ last_modified` and was last stamped no later than `c`. -/
def StoreInv (w : DDB) (c : Nat) : Prop :=
  ∀ k r, latestWrite w.hist k = some r →
    r.created ≤ r.last_modified ∧ r.last_modified ≤ c

/-- The clocks of an invocation sequence are non-decreasing and start no
earlier than `c`. -/
def ChainClocks (c : Nat) : List Invocation → Prop
  | [] => True
  | inv :: invs => c ≤ inv.now ∧ ChainClocks inv.now invs

/-- The clock value after the last invocation of a sequence. -/
def lastClock (c : Nat) : List Invocation → Nat
  | [] => c
  | inv :: invs => lastClock inv.now invs

/-- An empty table with no faults and an empty trace, for concrete runs. -/
def emptyWorld : DDB :=
  { hist := fun _ => [], faults := [], ops := [] }

lemma sendGetItem_noFault (w : DDB) (stale : Nat) (inp : GetItemInput)
    (h : w.faults = []) :
    sendGetItem w stale inp =
      .ok (⟨if inp.consistentRead then latestWrite w.hist inp.key
            else (w.hist inp.key).getD stale none⟩,
           { hist := w.hist, faults := [],
             ops := w.ops ++
               [StoreOp.getOp inp.tableName inp.consistentRead inp.key] }) := by
  simp [sendGetItem, h]

lemma sendPutItem_noFault (w : DDB) (inp : PutItemInput)
    (h : w.faults = []) :
    sendPutItem w inp =
      .ok { hist := fun k =>
              if k = inp.item.filename then some inp.item :: w.hist k
              else w.hist k,
            faults := [],
            ops := w.ops ++ [StoreOp.putOp inp.tableName inp.item] } := by
  simp [sendPutItem, h]

lemma sendDeleteItem_noFault (w : DDB) (inp : DeleteItemInput)
    (h : w.faults = []) :
    sendDeleteItem w inp =
      .ok { hist := fun k =>
              if k = inp.key then none :: w.hist k
              else w.hist k,
            faults := [],
            ops := w.ops ++ [StoreOp.deleteOp inp.tableName inp.key] } := by
  simp [sendDeleteItem, h]

lemma getItem_found (t : String) (w : DDB) (stale : Nat) (f : String)
    (r : IndexRecord) (hf : w.faults = [])
    (hr : latestWrite w.hist f = some r) :
    getItem t w stale f =
      .ok ({ fileExists := true, data := some r },
           { hist := w.hist, faults := [],
             ops := w.ops ++ [StoreOp.getOp t true f] }) := by
  cases r
  simp [getItem, sendGetItem_noFault w stale _ hf, getItemInput, hr]

lemma getItem_absent (t : String) (w : DDB) (stale : Nat) (f : String)
    (hf : w.faults = []) (hr : latestWrite w.hist f = none) :
    getItem t w stale f =
      .ok ({ fileExists := false, data := none },
           { hist := w.hist, faults := [],
             ops := w.ops ++ [StoreOp.getOp t true f] }) := by
  simp [getItem, sendGetItem_noFault w stale _ hf, getItemInput, hr]

lemma handleUpload_absent (t : String) (w : DDB) (stale : Nat) (f : String)
    (size now : Nat) (hf : w.faults = [])
    (hr : latestWrite w.hist f = none) :
    handleUpload t w stale f size now =
      .ok { hist := fun k =>
              if k = f then
                some { filename := f, size := size,
                       created := now, last_modified := now } :: w.hist k
              else w.hist k,
            faults := [],
            ops := w.ops ++
              [StoreOp.getOp t true f,
               StoreOp.putOp t { filename := f, size := size,
                                 created := now, last_modified := now }] } := by
  have h1 := getItem_absent t w stale f hf hr
  have h2 := sendPutItem_noFault
    { hist := w.hist, faults := [], ops := w.ops ++ [StoreOp.getOp t true f] }
    { tableName := t
      item := { filename := f, size := size,
                created := now, last_modified := now }
      returnValues := "NONE" } rfl
  simp [handleUpload, h1, createItem, h2]

lemma handleUpload_found (t : String) (w : DDB) (stale : Nat) (f : String)
    (r : IndexRecord) (size now : Nat) (hf : w.faults = [])
    (hr : latestWrite w.hist f = some r) :
    handleUpload t w stale f size now =
      .ok { hist := fun k =>
              if k = f then
                some { filename := f, size := size,
                       created := r.created, last_modified := now } :: w.hist k
              else w.hist k,
            faults := [],
            ops := w.ops ++
              [StoreOp.getOp t true f,
               StoreOp.putOp t { filename := f, size := size,
                                 created := r.created,
                                 last_modified := now }] } := by
  have h1 := getItem_found t w stale f r hf hr
  have h2 := sendPutItem_noFault
    { hist := w.hist, faults := [], ops := w.ops ++ [StoreOp.getOp t true f] }
    { tableName := t
      item := { filename := f, size := size,
                created := r.created, last_modified := now }
      returnValues := "NONE" } rfl
  simp [handleUpload, h1, updateItem, h2]

lemma handleDelete_noFault (t : String) (w : DDB) (f : String)
    (hf : w.faults = []) :
    handleDelete t w f =
      .ok { hist := fun k => if k = f then none :: w.hist k else w.hist k,
            faults := [],
            ops := w.ops ++ [StoreOp.deleteOp t f] } := by
  have h := sendDeleteItem_noFault w { tableName := t, key := f } hf
  simp [handleDelete, h]

lemma latestWrite_push_self (h : String → List (Option IndexRecord))
    (f : String) (v : Option IndexRecord) :
    latestWrite (fun k => if k = f then v :: h k else h k) f = v := by
  simp [latestWrite]

lemma latestWrite_push_other (h : String → List (Option IndexRecord))
    (f k : String) (v : Option IndexRecord) (hk : k ≠ f) :
    latestWrite (fun k' => if k' = f then v :: h k' else h k') k =
      latestWrite h k := by
  simp [latestWrite, hk]

/-- C1: an upsert of a key that already has a record with `created = T0`
issues a full-record put carrying `filename = key`, the new size,
`created = T0` unchanged, and `last_modified = now`; and two successive
upserts of the same key leave a single current record with the second size
and the `created` stamp written by the first upsert. -/
theorem upsert_existing_preserves_created :
    (∀ (t key : String) (w : DDB) (r : IndexRecord) (stale size now : Nat),
      w.faults = [] → latestWrite w.hist key = some r →
      ∃ w2, handleUpload t w stale key size now = .ok w2 ∧
        w2.ops = w.ops ++
          [StoreOp.getOp t true key,
           StoreOp.putOp t { filename := key, size := size,
                             created := r.created, last_modified := now }] ∧
        latestWrite w2.hist key =
          some { filename := key, size := size,
                 created := r.created, last_modified := now }) ∧
    (∀ (t key : String) (w : DDB) (stale1 stale2 S1 S2 t1 t2 : Nat),
      w.faults = [] → latestWrite w.hist key = none →
      ∃ w1 w2, handleUpload t w stale1 key S1 t1 = .ok w1 ∧
        handleUpload t w1 stale2 key S2 t2 = .ok w2 ∧
        latestWrite w2.hist key =
          some { filename := key, size := S2,
                 created := t1, last_modified := t2 }) := by
  constructor
  · intro t key w r stale size now hf hr
    refine ⟨_, handleUpload_found t w stale key r size now hf hr, by simp, ?_⟩
    exact latestWrite_push_self w.hist key _
  · intro t key w stale1 stale2 S1 S2 t1 t2 hf hr
    have h1 := handleUpload_absent t w stale1 key S1 t1 hf hr
    have h2 := handleUpload_found t
      { hist := fun k =>
          if k = key then
            some { filename := key, size := S1,
                   created := t1, last_modified := t1 } :: w.hist k
          else w.hist k,
        faults := [],
        ops := w.ops ++
          [StoreOp.getOp t true key,
           StoreOp.putOp t { filename := key, size := S1,
                             created := t1, last_modified := t1 }] }
      stale2 key
      { filename := key, size := S1, created := t1, last_modified := t1 }
      S2 t2 rfl (latestWrite_push_self w.hist key _)
    exact ⟨_, _, h1, h2, latestWrite_push_self _ key _⟩

/-- A table seeded with one record for `reports/q1.csv`, for witnesses. -/
def seededWorld : DDB :=
  { hist := fun k =>
      if k = "reports/q1.csv" then
        [some { filename := "reports/q1.csv", size := 2048,
                created := 5, last_modified := 5 }]
      else [],
    faults := [], ops := [] }

theorem upsert_existing_preserves_created_witness :
    (seededWorld.faults = [] ∧
     latestWrite seededWorld.hist "reports/q1.csv" =
       some { filename := "reports/q1.csv", size := 2048,
              created := 5, last_modified := 5 } ∧
     ∃ w2, handleUpload "T" seededWorld 0 "reports/q1.csv" 4096 9 = .ok w2 ∧
       w2.ops = seededWorld.ops ++
         [StoreOp.getOp "T" true "reports/q1.csv",
          StoreOp.putOp "T" { filename := "reports/q1.csv", size := 4096,
                              created := 5, last_modified := 9 }] ∧
       latestWrite w2.hist "reports/q1.csv" =
         some { filename := "reports/q1.csv", size := 4096,
                created := 5, last_modified := 9 }) ∧
    (emptyWorld.faults = [] ∧
     latestWrite emptyWorld.hist "reports/q1.csv" = none ∧
     ∃ w1 w2, handleUpload "T" emptyWorld 0 "reports/q1.csv" 2048 3 = .ok w1 ∧
       handleUpload "T" w1 0 "reports/q1.csv" 4096 9 = .ok w2 ∧
       latestWrite w2.hist "reports/q1.csv" =
         some { filename := "reports/q1.csv", size := 4096,
                created := 3, last_modified := 9 }) :=
  ⟨⟨rfl, by decide,
    upsert_existing_preserves_created.1 "T" "reports/q1.csv" seededWorld
      { filename := "reports/q1.csv", size := 2048, created := 5,
        last_modified := 5 } 0 4096 9 rfl (by decide)⟩,
   ⟨rfl, rfl,
    upsert_existing_preserves_created.2 "T" "reports/q1.csv" emptyWorld
      0 0 2048 4096 3 9 rfl rfl⟩⟩

/-- C2: an upsert of a key with no existing record inserts a fresh record
with `filename = key`, the observed size, and `created = last_modified =
now`, via a single get followed by a single full-record put. -/
theorem upsert_absent_inserts_fresh_record :
    ∀ (t key : String) (w : DDB) (stale size now : Nat),
      w.faults = [] → latestWrite w.hist key = none →
      ∃ w2, handleUpload t w stale key size now = .ok w2 ∧
        w2.ops = w.ops ++
          [StoreOp.getOp t true key,
           StoreOp.putOp t { filename := key, size := size,
                             created := now, last_modified := now }] ∧
        latestWrite w2.hist key =
          some { filename := key, size := size,
                 created := now, last_modified := now } ∧
        (latestWrite w2.hist key).map IndexRecord.created =
          (latestWrite w2.hist key).map IndexRecord.last_modified := by
  intro t key w stale size now hf hr
  refine ⟨_, handleUpload_absent t w stale key size now hf hr, by simp, ?_, ?_⟩
  · exact latestWrite_push_self w.hist key _
  · simp [latestWrite_push_self]

theorem upsert_absent_inserts_fresh_record_witness :
    emptyWorld.faults = [] ∧
    latestWrite emptyWorld.hist "reports/q1.csv" = none ∧
    ∃ w2, handleUpload "T" emptyWorld 0 "reports/q1.csv" 2048 3 = .ok w2 ∧
      w2.ops = emptyWorld.ops ++
        [StoreOp.getOp "T" true "reports/q1.csv",
         StoreOp.putOp "T" { filename := "reports/q1.csv", size := 2048,
                             created := 3, last_modified := 3 }] ∧
      latestWrite w2.hist "reports/q1.csv" =
        some { filename := "reports/q1.csv", size := 2048,
               created := 3, last_modified := 3 } ∧
      (latestWrite w2.hist "reports/q1.csv").map IndexRecord.created =
        (latestWrite w2.hist "reports/q1.csv").map IndexRecord.last_modified :=
  ⟨rfl, rfl,
   upsert_absent_inserts_fresh_record "T" "reports/q1.csv" emptyWorld
     0 2048 3 rfl rfl⟩

/-- C3: when the decoded key ends with the path separator, the handler
returns the world untouched — same histories and same operation trace, so
no read, write, or delete was issued — whatever the event type is. -/
theorem folder_key_skips_all_store_ops :
    ∀ (t : String) (data : S3Event) (w : DDB) (stale now : Nat)
      (ev : EventRecord) (key : String),
      data.Records.head? = some ev →
      decodeKey ev.s3.object.key = some key →
      jsEndsWith key "/" = true →
      handler t data w stale now = .ok { world := w, loggedError := false } := by
  intro t data w stale now ev key h1 h2 h3
  simp [handler, h1, h2, h3]

/-- A change record for the folder key `archive/2023/`, for witnesses. -/
def folderRecordEx : EventRecord :=
  { eventName := "ObjectCreated:Put",
    s3 := { bucket := { name := "b" },
            object := { key := "archive/2023/", size := 2048 } } }

/-- An event for the folder key `archive/2023/`, for witnesses. -/
def folderEvent : S3Event :=
  { Records := [folderRecordEx] }

theorem folder_key_skips_all_store_ops_witness :
    folderEvent.Records.head? = some folderRecordEx ∧
    decodeKey "archive/2023/" = some "archive/2023/" ∧
    jsEndsWith "archive/2023/" "/" = true ∧
    handler "T" folderEvent emptyWorld 0 7 =
      .ok { world := emptyWorld, loggedError := false } :=
  ⟨rfl, by decide, by decide,
   folder_key_skips_all_store_ops "T" folderEvent emptyWorld 0 7
     folderRecordEx "archive/2023/" rfl (by decide) (by decide)⟩

/-- C5: the delete handler leaves the key absent, needs no pre-existing
record, a lookup afterwards reports the file absent, and deleting again
succeeds and leaves the key absent as well. -/
theorem delete_idempotent_absent_after :
    ∀ (t key : String) (w : DDB) (stale : Nat), w.faults = [] →
      ∃ w1, handleDelete t w key = .ok w1 ∧
        latestWrite w1.hist key = none ∧
        (∃ wg, getItem t w1 stale key =
          .ok ({ fileExists := false, data := none }, wg)) ∧
        ∃ w2, handleDelete t w1 key = .ok w2 ∧
          latestWrite w2.hist key = none := by
  intro t key w stale hf
  refine ⟨_, handleDelete_noFault t w key hf, ?_, ?_, ?_⟩
  · exact latestWrite_push_self w.hist key none
  · exact ⟨_, getItem_absent t _ stale key rfl
      (latestWrite_push_self w.hist key none)⟩
  · refine ⟨_, handleDelete_noFault t _ key rfl, ?_⟩
    exact latestWrite_push_self _ key none

theorem delete_idempotent_absent_after_witness :
    seededWorld.faults = [] ∧
    (∃ w1, handleDelete "T" seededWorld "reports/q1.csv" = .ok w1 ∧
      latestWrite w1.hist "reports/q1.csv" = none ∧
      (∃ wg, getItem "T" w1 0 "reports/q1.csv" =
        .ok ({ fileExists := false, data := none }, wg)) ∧
      ∃ w2, handleDelete "T" w1 "reports/q1.csv" = .ok w2 ∧
        latestWrite w2.hist "reports/q1.csv" = none) :=
  ⟨rfl, delete_idempotent_absent_after "T" "reports/q1.csv" seededWorld 0 rfl⟩

/-- C6: an event whose name starts with neither the creation nor the
removal prefix, on a non-folder key, leaves the world untouched (no store
operation), logs the classification error, and the invocation completes
normally. -/
theorem unsupported_event_logs_and_completes :
    ∀ (t : String) (data : S3Event) (w : DDB) (stale now : Nat)
      (ev : EventRecord) (key : String),
      data.Records.head? = some ev →
      decodeKey ev.s3.object.key = some key →
      jsEndsWith key "/" = false →
      jsStartsWith ev.eventName "ObjectCreated" = false →
      jsStartsWith ev.eventName "ObjectRemove" = false →
      handler t data w stale now = .ok { world := w, loggedError := true } := by
  intro t data w stale now ev key h1 h2 h3 h4 h5
  simp [handler, h1, h2, h3, h4, h5]

/-- A change record with an unsupported action name, for witnesses. -/
def unsupportedRecordEx : EventRecord :=
  { eventName := "ObjectTagging:Put",
    s3 := { bucket := { name := "b" },
            object := { key := "reports/q1.csv", size := 2048 } } }

/-- An event with an unsupported action name, for witnesses. -/
def unsupportedEvent : S3Event :=
  { Records := [unsupportedRecordEx] }

theorem unsupported_event_logs_and_completes_witness :
    unsupportedEvent.Records.head? = some unsupportedRecordEx ∧
    decodeKey "reports/q1.csv" = some "reports/q1.csv" ∧
    jsEndsWith "reports/q1.csv" "/" = false ∧
    jsStartsWith "ObjectTagging:Put" "ObjectCreated" = false ∧
    jsStartsWith "ObjectTagging:Put" "ObjectRemove" = false ∧
    handler "T" unsupportedEvent emptyWorld 0 7 =
      .ok { world := emptyWorld, loggedError := true } :=
  ⟨rfl, by decide, by decide, by decide, by decide,
   unsupported_event_logs_and_completes "T" unsupportedEvent emptyWorld 0 7
     unsupportedRecordEx "reports/q1.csv" rfl (by decide)
     (by decide) (by decide) (by decide)⟩

lemma sendPutItem_ok_latest (w w2 : DDB) (inp : PutItemInput)
    (h : sendPutItem w inp = .ok w2) :
    latestWrite w2.hist inp.item.filename = some inp.item := by
  simp only [sendPutItem] at h
  split at h
  · simp at h
  · cases h
    exact latestWrite_push_self w.hist inp.item.filename (some inp.item)

/-- C7: the lookup issues its GetItemCommand with `ConsistentRead: true`;
for every staleness oracle it reports the newest write — the full field set
with `fileExists = true` when a record is current, `fileExists = false`
with absent data otherwise — and reading a key immediately after a
successful put of that key returns exactly the record just written. -/
theorem lookup_strongly_consistent :
    (∀ t f : String, (getItemInput t f).consistentRead = true) ∧
    (∀ (t f : String) (w : DDB) (stale : Nat) (r : IndexRecord),
      w.faults = [] → latestWrite w.hist f = some r →
      getItem t w stale f =
        .ok ({ fileExists := true, data := some r },
             { hist := w.hist, faults := [],
               ops := w.ops ++ [StoreOp.getOp t true f] })) ∧
    (∀ (t f : String) (w : DDB) (stale : Nat),
      w.faults = [] → latestWrite w.hist f = none →
      getItem t w stale f =
        .ok ({ fileExists := false, data := none },
             { hist := w.hist, faults := [],
               ops := w.ops ++ [StoreOp.getOp t true f] })) ∧
    (∀ (t : String) (w w2 : DDB) (stale : Nat) (inp : PutItemInput),
      sendPutItem w inp = .ok w2 → w2.faults = [] →
      ∃ wg, getItem t w2 stale inp.item.filename =
        .ok ({ fileExists := true, data := some inp.item }, wg)) := by
  refine ⟨fun t f => rfl, fun t f w stale r => getItem_found t w stale f r,
    fun t f w stale => getItem_absent t w stale f, ?_⟩
  intro t w w2 stale inp hput hf
  exact ⟨_, getItem_found t w2 stale inp.item.filename inp.item hf
    (sendPutItem_ok_latest w w2 inp hput)⟩

theorem lookup_strongly_consistent_witness :
    (getItemInput "T" "reports/q1.csv").consistentRead = true ∧
    (seededWorld.faults = [] ∧
     latestWrite seededWorld.hist "reports/q1.csv" =
       some { filename := "reports/q1.csv", size := 2048,
              created := 5, last_modified := 5 } ∧
     getItem "T" seededWorld 3 "reports/q1.csv" =
       .ok ({ fileExists := true,
              data := some { filename := "reports/q1.csv", size := 2048,
                             created := 5, last_modified := 5 } },
            { hist := seededWorld.hist, faults := [],
              ops := seededWorld.ops ++
                [StoreOp.getOp "T" true "reports/q1.csv"] })) ∧
    (emptyWorld.faults = [] ∧
     latestWrite emptyWorld.hist "x" = none ∧
     getItem "T" emptyWorld 3 "x" =
       .ok ({ fileExists := false, data := none },
            { hist := emptyWorld.hist, faults := [],
              ops := emptyWorld.ops ++ [StoreOp.getOp "T" true "x"] })) :=
  ⟨lookup_strongly_consistent.1 "T" "reports/q1.csv",
   ⟨rfl, by decide,
    lookup_strongly_consistent.2.1 "T" "reports/q1.csv" seededWorld 3
      { filename := "reports/q1.csv", size := 2048,
        created := 5, last_modified := 5 } rfl (by decide)⟩,
   ⟨rfl, rfl,
    lookup_strongly_consistent.2.2.1 "T" "x" emptyWorld 3 rfl rfl⟩⟩

/-- A change record whose key has a malformed percent escape. -/
def badKeyRecordEx : EventRecord :=
  { eventName := "ObjectCreated:Put",
    s3 := { bucket := { name := "b" },
            object := { key := "a%", size := 7 } } }

/-- An event carrying the malformed key, a URIError case. -/
def badKeyEvent : S3Event :=
  { Records := [badKeyRecordEx] }

/-- C4 counterexample: on the key `a%` the `decodeURIComponent` failure is
raised before the try block, so the invocation does not complete normally —
the handler rejects with an uncaught URIError, contradicting the claim that
every decoding error is caught and swallowed. -/
theorem malformed_key_error_not_swallowed :
    handler "T" badKeyEvent emptyWorld 0 0 =
      .error UncaughtError.uriError := rfl

/-- C4 amended: every error raised inside the dispatch switch — the
classification error for unsupported actions and any store transport error
during lookup, write, or delete, whatever the fault oracle injects — is
caught at the outermost boundary and the invocation completes normally;
but key decoding runs before the try block, so a malformed key encoding
rejects the invocation with an uncaught URIError. -/
theorem dispatch_errors_caught_after_decoding :
    (∀ (t : String) (data : S3Event) (w : DDB) (stale now : Nat)
        (ev : EventRecord),
      data.Records.head? = some ev →
      (decodeKey ev.s3.object.key).isSome →
      ∃ out, handler t data w stale now = .ok out) ∧
    (∀ (t : String) (data : S3Event) (w : DDB) (stale now : Nat)
        (ev : EventRecord),
      data.Records.head? = some ev →
      decodeKey ev.s3.object.key = none →
      handler t data w stale now = .error .uriError) := by
  constructor
  · intro t data w stale now ev h1 h2
    obtain ⟨key, hkey⟩ := Option.isSome_iff_exists.mp h2
    simp only [handler, h1, hkey]
    split
    · exact ⟨_, rfl⟩
    · split
      · rcases hup : handleUpload t w stale key ev.s3.object.size now with e | w2
        · obtain ⟨e1, e2⟩ := e
          exact ⟨_, rfl⟩
        · exact ⟨_, rfl⟩
      · split
        · rcases hdel : handleDelete t w key with e | w2
          · obtain ⟨e1, e2⟩ := e
            exact ⟨_, rfl⟩
          · exact ⟨_, rfl⟩
        · exact ⟨_, rfl⟩
  · intro t data w stale now ev h1 h2
    simp [handler, h1, h2]

theorem dispatch_errors_caught_after_decoding_witness :
    (unsupportedEvent.Records.head? = some unsupportedRecordEx ∧
     (decodeKey "reports/q1.csv").isSome = true ∧
     ∃ out, handler "T" unsupportedEvent emptyWorld 0 0 = .ok out) ∧
    (badKeyEvent.Records.head? = some badKeyRecordEx ∧
     decodeKey "a%" = none ∧
     handler "T" badKeyEvent emptyWorld 0 0 = .error .uriError) :=
  ⟨⟨rfl, by decide,
    dispatch_errors_caught_after_decoding.1 "T" unsupportedEvent emptyWorld
      0 0 unsupportedRecordEx rfl (by decide)⟩,
   ⟨rfl, rfl,
    dispatch_errors_caught_after_decoding.2 "T" badKeyEvent emptyWorld
      0 0 badKeyRecordEx rfl rfl⟩⟩

/-- C9: the dispatcher reads only `Records[0]` — its behaviour on a batch
equals its behaviour on the first record alone, for any further records —
and an unsupported classification of that first event still completes the
invocation normally, whatever else the batch carries. -/
theorem dispatcher_processes_first_record_only :
    (∀ (t : String) (r : EventRecord) (rest : List EventRecord) (w : DDB)
        (stale now : Nat),
      handler t { Records := r :: rest } w stale now =
        handler t { Records := [r] } w stale now) ∧
    (∀ (t : String) (r : EventRecord) (rest : List EventRecord) (w : DDB)
        (stale now : Nat) (key : String),
      decodeKey r.s3.object.key = some key →
      jsEndsWith key "/" = false →
      jsStartsWith r.eventName "ObjectCreated" = false →
      jsStartsWith r.eventName "ObjectRemove" = false →
      handler t { Records := r :: rest } w stale now =
        .ok { world := w, loggedError := true }) := by
  constructor
  · intro t r rest w stale now
    rfl
  · intro t r rest w stale now key h1 h2 h3 h4
    simp [handler, h1, h2, h3, h4]

theorem dispatcher_processes_first_record_only_witness :
    (handler "T" { Records := [unsupportedRecordEx, folderRecordEx] }
       emptyWorld 0 0 =
     handler "T" { Records := [unsupportedRecordEx] } emptyWorld 0 0) ∧
    (decodeKey "reports/q1.csv" = some "reports/q1.csv" ∧
     jsEndsWith "reports/q1.csv" "/" = false ∧
     jsStartsWith "ObjectTagging:Put" "ObjectCreated" = false ∧
     jsStartsWith "ObjectTagging:Put" "ObjectRemove" = false ∧
     handler "T" { Records := [unsupportedRecordEx, folderRecordEx] }
       emptyWorld 0 0 = .ok { world := emptyWorld, loggedError := true }) :=
  ⟨dispatcher_processes_first_record_only.1 "T" unsupportedRecordEx
     [folderRecordEx] emptyWorld 0 0,
   by decide, by decide, by decide, by decide,
   dispatcher_processes_first_record_only.2 "T" unsupportedRecordEx
     [folderRecordEx] emptyWorld 0 0 "reports/q1.csv" (by decide) (by decide)
     (by decide) (by decide)⟩

lemma mem_append_keyed (ops newOps : List StoreOp) (f : String)
    (hnew : ∀ op ∈ newOps, StoreOp.opKey op = f) :
    ∀ op ∈ ops ++ newOps, op ∈ ops ∨ StoreOp.opKey op = f := by
  intro op hop
  rcases List.mem_append.mp hop with h | h
  · exact .inl h
  · exact .inr (hnew op h)

lemma getItem_world (t : String) (w : DDB) (stale : Nat) (f : String) :
    (∀ e wE, getItem t w stale f = .error (e, wE) →
       wE.hist = w.hist ∧ wE.ops = w.ops ++ [StoreOp.getOp t true f]) ∧
    (∀ r w', getItem t w stale f = .ok (r, w') →
       w'.hist = w.hist ∧ w'.ops = w.ops ++ [StoreOp.getOp t true f]) := by
  constructor
  · intro e wE h
    simp only [getItem, getItemInput, sendGetItem] at h
    split at h
    · rename_i x e2 heq
      simp only [Except.error.injEq] at h
      subst h
      split at heq
      · simp only [Except.error.injEq, Prod.mk.injEq] at heq
        obtain ⟨-, rfl⟩ := heq
        exact ⟨rfl, rfl⟩
      · simp at heq
    · simp at h
  · intro r w' h
    simp only [getItem, getItemInput, sendGetItem] at h
    split at h
    · simp at h
    · rename_i x response wg heq
      simp only [Except.ok.injEq, Prod.mk.injEq] at h
      obtain ⟨-, rfl⟩ := h
      split at heq
      · simp at heq
      · simp only [Except.ok.injEq, Prod.mk.injEq] at heq
        obtain ⟨-, rfl⟩ := heq
        exact ⟨rfl, rfl⟩

lemma sendPutItem_world (w : DDB) (inp : PutItemInput) :
    (∀ e wE, sendPutItem w inp = .error (e, wE) →
       wE.hist = w.hist ∧
       wE.ops = w.ops ++ [StoreOp.putOp inp.tableName inp.item]) ∧
    (∀ w', sendPutItem w inp = .ok w' →
       (∀ k, k ≠ inp.item.filename → w'.hist k = w.hist k) ∧
       w'.ops = w.ops ++ [StoreOp.putOp inp.tableName inp.item]) := by
  constructor
  · intro e wE h
    simp only [sendPutItem] at h
    split at h
    · simp only [Except.error.injEq, Prod.mk.injEq] at h
      obtain ⟨-, rfl⟩ := h
      exact ⟨rfl, rfl⟩
    · simp at h
  · intro w' h
    simp only [sendPutItem] at h
    split at h
    · simp at h
    · simp only [Except.ok.injEq] at h
      subst h
      exact ⟨fun k hk => by simp [hk], rfl⟩

lemma sendDeleteItem_world (w : DDB) (inp : DeleteItemInput) :
    (∀ e wE, sendDeleteItem w inp = .error (e, wE) →
       wE.hist = w.hist ∧
       wE.ops = w.ops ++ [StoreOp.deleteOp inp.tableName inp.key]) ∧
    (∀ w', sendDeleteItem w inp = .ok w' →
       (∀ k, k ≠ inp.key → w'.hist k = w.hist k) ∧
       w'.ops = w.ops ++ [StoreOp.deleteOp inp.tableName inp.key]) := by
  constructor
  · intro e wE h
    simp only [sendDeleteItem] at h
    split at h
    · simp only [Except.error.injEq, Prod.mk.injEq] at h
      obtain ⟨-, rfl⟩ := h
      exact ⟨rfl, rfl⟩
    · simp at h
  · intro w' h
    simp only [sendDeleteItem] at h
    split at h
    · simp at h
    · simp only [Except.ok.injEq] at h
      subst h
      exact ⟨fun k hk => by simp [hk], rfl⟩

lemma frame_after_get_put (w w' w2 : DDB) (f t : String)
    (item : IndexRecord) (hfn : item.filename = f)
    (hh : w'.hist = w.hist) (ho : w'.ops = w.ops ++ [StoreOp.getOp t true f])
    (hph : ∀ k, k ≠ item.filename → w2.hist k = w'.hist k)
    (hpo : w2.ops = w'.ops ++ [StoreOp.putOp t item]) :
    (∀ k, k ≠ f → w2.hist k = w.hist k) ∧
    (∀ op, op ∈ w2.ops → op ∈ w.ops ∨ StoreOp.opKey op = f) := by
  constructor
  · intro k hk
    rw [hph k (by simp [hfn, hk]), hh]
  · intro op hop
    rw [hpo, ho] at hop
    rcases List.mem_append.mp hop with hop | hop
    · rcases List.mem_append.mp hop with hop | hop
      · exact .inl hop
      · simp only [List.mem_singleton] at hop
        subst hop
        exact .inr rfl
    · simp only [List.mem_singleton] at hop
      subst hop
      exact .inr (by simp [StoreOp.opKey, hfn])

lemma handleUpload_frame (t : String) (w : DDB) (stale : Nat) (f : String)
    (size now : Nat) (w2 : DDB)
    (h : handleUpload t w stale f size now = .ok w2 ∨
         ∃ e, handleUpload t w stale f size now = .error (e, w2)) :
    (∀ k, k ≠ f → w2.hist k = w.hist k) ∧
    (∀ op, op ∈ w2.ops → op ∈ w.ops ∨ StoreOp.opKey op = f) := by
  rcases hgi : getItem t w stale f with e | rw'
  · obtain ⟨e1, wE⟩ := e
    obtain ⟨hh, ho⟩ := (getItem_world t w stale f).1 e1 wE hgi
    simp only [handleUpload, hgi] at h
    rcases h with h | ⟨e', h⟩
    · simp at h
    · simp only [Except.error.injEq, Prod.mk.injEq] at h
      obtain ⟨-, rfl⟩ := h
      refine ⟨fun k hk => by rw [hh], ?_⟩
      intro op hop
      rw [ho] at hop
      rcases List.mem_append.mp hop with hop | hop
      · exact .inl hop
      · simp only [List.mem_singleton] at hop
        subst hop
        exact .inr rfl
  · obtain ⟨r, w'⟩ := rw'
    obtain ⟨hh, ho⟩ := (getItem_world t w stale f).2 r w' hgi
    simp only [handleUpload, hgi] at h
    by_cases hex : r.fileExists
    · simp only [hex, Bool.not_true, Bool.false_eq_true, if_false] at h
      cases hd : r.data with
      | none =>
        simp only [hd] at h
        rcases h with h | ⟨e', h⟩
        · simp only [Except.ok.injEq] at h
          subst h
          refine ⟨fun k hk => by rw [hh], ?_⟩
          intro op hop
          rw [ho] at hop
          rcases List.mem_append.mp hop with hop | hop
          · exact .inl hop
          · simp only [List.mem_singleton] at hop
            subst hop
            exact .inr rfl
        · simp at h
      | some d =>
        simp only [hd, updateItem] at h
        rcases h with h | ⟨e', h⟩
        · obtain ⟨hph, hpo⟩ := (sendPutItem_world w' _).2 w2 h
          exact frame_after_get_put w w' w2 f t _ rfl hh ho hph hpo
        · obtain ⟨hph, hpo⟩ := (sendPutItem_world w' _).1 e' w2 h
          refine frame_after_get_put w w' w2 f t _ rfl hh ho ?_ hpo
          intro k hk
          rw [hph]
    · simp only [hex, Bool.not_false, if_true, createItem] at h
      rcases h with h | ⟨e', h⟩
      · obtain ⟨hph, hpo⟩ := (sendPutItem_world w' _).2 w2 h
        exact frame_after_get_put w w' w2 f t _ rfl hh ho hph hpo
      · obtain ⟨hph, hpo⟩ := (sendPutItem_world w' _).1 e' w2 h
        refine frame_after_get_put w w' w2 f t _ rfl hh ho ?_ hpo
        intro k hk
        rw [hph]

lemma handleDelete_frame (t : String) (w : DDB) (f : String) (w2 : DDB)
    (h : handleDelete t w f = .ok w2 ∨
         ∃ e, handleDelete t w f = .error (e, w2)) :
    (∀ k, k ≠ f → w2.hist k = w.hist k) ∧
    (∀ op, op ∈ w2.ops → op ∈ w.ops ∨ StoreOp.opKey op = f) := by
  have hmem : ∀ (ops : List StoreOp), ∀ op,
      op ∈ ops ++ [StoreOp.deleteOp t f] → op ∈ ops ∨ StoreOp.opKey op = f := by
    intro ops op hop
    rcases List.mem_append.mp hop with hop | hop
    · exact .inl hop
    · simp only [List.mem_singleton] at hop
      subst hop
      exact .inr rfl
  rcases h with h | ⟨e', h⟩
  · obtain ⟨hph, hpo⟩ := (sendDeleteItem_world w _).2 w2 h
    refine ⟨fun k hk => hph k hk, ?_⟩
    intro op hop
    rw [hpo] at hop
    exact hmem w.ops op hop
  · obtain ⟨hph, hpo⟩ := (sendDeleteItem_world w _).1 e' w2 h
    refine ⟨fun k hk => by rw [hph], ?_⟩
    intro op hop
    rw [hpo] at hop
    exact hmem w.ops op hop

/-- C10: a handled notification with decoded key `k` leaves every other
key's history untouched, and every store operation it issues — read, write,
or delete, on the upsert path and the delete path alike — addresses `k`
only. -/
theorem handler_frame_other_keys_unchanged :
    ∀ (t : String) (data : S3Event) (w : DDB) (stale now : Nat)
      (ev : EventRecord) (key : String) (out : HandlerOutcome),
      data.Records.head? = some ev →
      decodeKey ev.s3.object.key = some key →
      handler t data w stale now = .ok out →
      (∀ k, k ≠ key → out.world.hist k = w.hist k) ∧
      (∀ op, op ∈ out.world.ops → op ∈ w.ops ∨ StoreOp.opKey op = key) := by
  intro t data w stale now ev key out h1 h2 h3
  simp only [handler, h1, h2] at h3
  split at h3
  · simp only [Except.ok.injEq] at h3
    subst h3
    exact ⟨fun k hk => rfl, fun op hop => .inl hop⟩
  · split at h3
    · rcases hup : handleUpload t w stale key ev.s3.object.size now with e | w2
      · obtain ⟨e1, w2⟩ := e
        rw [hup] at h3
        simp only [Except.ok.injEq] at h3
        subst h3
        exact handleUpload_frame t w stale key _ now w2 (.inr ⟨e1, hup⟩)
      · rw [hup] at h3
        simp only [Except.ok.injEq] at h3
        subst h3
        exact handleUpload_frame t w stale key _ now w2 (.inl hup)
    · split at h3
      · rcases hdel : handleDelete t w key with e | w2
        · obtain ⟨e1, w2⟩ := e
          rw [hdel] at h3
          simp only [Except.ok.injEq] at h3
          subst h3
          exact handleDelete_frame t w key w2 (.inr ⟨e1, hdel⟩)
        · rw [hdel] at h3
          simp only [Except.ok.injEq] at h3
          subst h3
          exact handleDelete_frame t w key w2 (.inl hdel)
      · simp only [Except.ok.injEq] at h3
        subst h3
        exact ⟨fun k hk => rfl, fun op hop => .inl hop⟩

/-- A removal change record for `reports/q1.csv`, for witnesses. -/
def removeRecordEx : EventRecord :=
  { eventName := "ObjectRemoved:Delete",
    s3 := { bucket := { name := "b" },
            object := { key := "reports/q1.csv", size := 0 } } }

/-- An event carrying the removal record, for witnesses. -/
def removeEvent : S3Event :=
  { Records := [removeRecordEx] }

/-- The outcome of handling `removeEvent` against `seededWorld`. -/
def frameOut : HandlerOutcome :=
  { world := { hist := fun k =>
                 if k = "reports/q1.csv" then none :: seededWorld.hist k
                 else seededWorld.hist k,
               faults := [],
               ops := [StoreOp.deleteOp "T" "reports/q1.csv"] },
    loggedError := false }

theorem handler_frame_other_keys_unchanged_witness :
    removeEvent.Records.head? = some removeRecordEx ∧
    decodeKey "reports/q1.csv" = some "reports/q1.csv" ∧
    handler "T" removeEvent seededWorld 0 9 = .ok frameOut ∧
    (∀ k, k ≠ "reports/q1.csv" →
      frameOut.world.hist k = seededWorld.hist k) ∧
    (∀ op, op ∈ frameOut.world.ops →
      op ∈ seededWorld.ops ∨ StoreOp.opKey op = "reports/q1.csv") :=
  ⟨rfl, rfl, rfl,
   (handler_frame_other_keys_unchanged "T" removeEvent seededWorld 0 9
     removeRecordEx "reports/q1.csv" frameOut rfl rfl rfl).1,
   (handler_frame_other_keys_unchanged "T" removeEvent seededWorld 0 9
     removeRecordEx "reports/q1.csv" frameOut rfl rfl rfl).2⟩

lemma sendPutItem_ok_hist (w : DDB) (inp : PutItemInput) (w2 : DDB)
    (h : sendPutItem w inp = .ok w2) :
    w2.hist = fun k =>
      if k = inp.item.filename then some inp.item :: w.hist k
      else w.hist k := by
  simp only [sendPutItem] at h
  split at h
  · simp at h
  · simp only [Except.ok.injEq] at h
    subst h
    rfl

lemma sendDeleteItem_ok_hist (w : DDB) (inp : DeleteItemInput) (w2 : DDB)
    (h : sendDeleteItem w inp = .ok w2) :
    w2.hist = fun k =>
      if k = inp.key then none :: w.hist k
      else w.hist k := by
  simp only [sendDeleteItem] at h
  split at h
  · simp at h
  · simp only [Except.ok.injEq] at h
    subst h
    rfl

lemma getItem_result (t : String) (w : DDB) (stale : Nat) (f : String)
    (r : GetItemResult) (w' : DDB) (h : getItem t w stale f = .ok (r, w')) :
    r.fileExists = (latestWrite w.hist f).isSome ∧
    r.data = latestWrite w.hist f ∧
    w'.hist = w.hist := by
  simp only [getItem, getItemInput, sendGetItem] at h
  split at h
  · simp at h
  · rename_i x response wg heq
    simp only [Except.ok.injEq, Prod.mk.injEq] at h
    obtain ⟨hr, rfl⟩ := h
    split at heq
    · simp at heq
    · simp only [Except.ok.injEq, Prod.mk.injEq] at heq
      obtain ⟨hresp, rfl⟩ := heq
      subst hresp
      obtain rfl := hr.symm
      cases hl : latestWrite w.hist f <;> simp [hl]

lemma handleUpload_writes (t : String) (w : DDB) (stale : Nat) (f : String)
    (size now : Nat) (w2 : DDB)
    (h : handleUpload t w stale f size now = .ok w2 ∨
         ∃ e, handleUpload t w stale f size now = .error (e, w2)) :
    w2.hist = w.hist ∨
    (latestWrite w.hist f = none ∧
      w2.hist = fun k =>
        if k = f then
          some { filename := f, size := size, created := now,
                 last_modified := now } :: w.hist k
        else w.hist k) ∨
    (∃ r, latestWrite w.hist f = some r ∧
      w2.hist = fun k =>
        if k = f then
          some { filename := f, size := size, created := r.created,
                 last_modified := now } :: w.hist k
        else w.hist k) := by
  rcases hgi : getItem t w stale f with e | rw'
  · obtain ⟨e1, wE⟩ := e
    simp only [handleUpload, hgi] at h
    rcases h with h | ⟨e', h⟩
    · simp at h
    · simp only [Except.error.injEq, Prod.mk.injEq] at h
      obtain ⟨-, rfl⟩ := h
      exact .inl ((getItem_world t w stale f).1 e1 wE hgi).1
  · obtain ⟨r, w'⟩ := rw'
    obtain ⟨hex, hdata, hh⟩ := getItem_result t w stale f r w' hgi
    simp only [handleUpload, hgi] at h
    cases hl : latestWrite w.hist f with
    | none =>
      rw [hl] at hex hdata
      simp only [Option.isSome_none] at hex
      simp only [hex, createItem, Bool.not_false, if_true] at h
      rcases h with h | ⟨e', h⟩
      · have hph := sendPutItem_ok_hist w' _ w2 h
        refine .inr (.inl ⟨rfl, ?_⟩)
        rw [hph, hh]
      · obtain ⟨hEh, -⟩ := (sendPutItem_world w' _).1 e' w2 h
        exact .inl (hEh.trans hh)
    | some rr =>
      rw [hl] at hex hdata
      simp only [Option.isSome_some] at hex
      simp only [hex, Bool.not_true, Bool.false_eq_true, if_false, hdata,
        updateItem] at h
      rcases h with h | ⟨e', h⟩
      · have hph := sendPutItem_ok_hist w' _ w2 h
        refine .inr (.inr ⟨rr, rfl, ?_⟩)
        rw [hph, hh]
      · obtain ⟨hEh, -⟩ := (sendPutItem_world w' _).1 e' w2 h
        exact .inl (hEh.trans hh)

lemma handler_writes (t : String) (data : S3Event) (w : DDB)
    (stale now : Nat) (out : HandlerOutcome)
    (h : handler t data w stale now = .ok out) :
    out.world.hist = w.hist ∨
    (∃ f, out.world.hist = fun k =>
        if k = f then none :: w.hist k else w.hist k) ∨
    (∃ f size, latestWrite w.hist f = none ∧
      out.world.hist = fun k =>
        if k = f then
          some { filename := f, size := size, created := now,
                 last_modified := now } :: w.hist k
        else w.hist k) ∨
    (∃ f size r, latestWrite w.hist f = some r ∧
      out.world.hist = fun k =>
        if k = f then
          some { filename := f, size := size, created := r.created,
                 last_modified := now } :: w.hist k
        else w.hist k) := by
  cases hrec : data.Records.head? with
  | none => simp [handler, hrec] at h
  | some ev =>
    cases hdk : decodeKey ev.s3.object.key with
    | none => simp [handler, hrec, hdk] at h
    | some key =>
      simp only [handler, hrec, hdk] at h
      split at h
      · simp only [Except.ok.injEq] at h
        subst h
        exact .inl rfl
      · split at h
        · rcases hup : handleUpload t w stale key ev.s3.object.size now
            with e | w2
          · obtain ⟨e1, w2⟩ := e
            rw [hup] at h
            simp only [Except.ok.injEq] at h
            subst h
            rcases handleUpload_writes t w stale key ev.s3.object.size now
              w2 (.inr ⟨e1, hup⟩) with hw | ⟨hn, hw⟩ | ⟨r, hs, hw⟩
            · exact .inl hw
            · exact .inr (.inr (.inl ⟨key, ev.s3.object.size, hn, hw⟩))
            · exact .inr (.inr (.inr ⟨key, ev.s3.object.size, r, hs, hw⟩))
          · rw [hup] at h
            simp only [Except.ok.injEq] at h
            subst h
            rcases handleUpload_writes t w stale key ev.s3.object.size now
              w2 (.inl hup) with hw | ⟨hn, hw⟩ | ⟨r, hs, hw⟩
            · exact .inl hw
            · exact .inr (.inr (.inl ⟨key, ev.s3.object.size, hn, hw⟩))
            · exact .inr (.inr (.inr ⟨key, ev.s3.object.size, r, hs, hw⟩))
        · split at h
          · rcases hdel : handleDelete t w key with e | w2
            · obtain ⟨e1, w2⟩ := e
              rw [hdel] at h
              simp only [Except.ok.injEq] at h
              subst h
              obtain ⟨hEh, -⟩ :=
                (sendDeleteItem_world w _).1 e1 w2 hdel
              exact .inl hEh
            · rw [hdel] at h
              simp only [Except.ok.injEq] at h
              subst h
              have hph := sendDeleteItem_ok_hist w _ w2 hdel
              exact .inr (.inl ⟨key, hph⟩)
          · simp only [Except.ok.injEq] at h
            subst h
            exact .inl rfl

lemma storeInv_weaken (w : DDB) (c c' : Nat) (hc : c ≤ c')
    (h : StoreInv w c) : StoreInv w c' :=
  fun k r hr => ⟨(h k r hr).1, le_trans (h k r hr).2 hc⟩

lemma handler_step_inv (t : String) (w : DDB) (inv : Invocation) (c : Nat)
    (hw : StoreInv w c) (hc : c ≤ inv.now) :
    StoreInv (runInvocation t w inv) inv.now ∧
    (∀ k r r', latestWrite w.hist k = some r →
      latestWrite (runInvocation t w inv).hist k = some r' →
      r.last_modified ≤ r'.last_modified) := by
  cases hh : handler t inv.data w inv.stale inv.now with
  | error e =>
    have hrw : runInvocation t w inv = w := by
      simp [runInvocation, hh]
    rw [hrw]
    refine ⟨storeInv_weaken w c inv.now hc hw, ?_⟩
    intro k r r' h1 h2
    rw [h1] at h2
    obtain rfl : r = r' := by injection h2
    exact le_refl _
  | ok out =>
    have hrw : runInvocation t w inv = out.world := by
      simp [runInvocation, hh]
    rw [hrw]
    rcases handler_writes t inv.data w inv.stale inv.now out hh
      with hist_eq | ⟨f, hwr⟩ | ⟨f, size, hn, hwr⟩ | ⟨f, size, r0, hs, hwr⟩
    · constructor
      · intro k r hr
        rw [hist_eq] at hr
        exact storeInv_weaken w c inv.now hc hw k r hr
      · intro k r r' h1 h2
        rw [hist_eq, h1] at h2
        obtain rfl : r = r' := by injection h2
        exact le_refl _
    · constructor
      · intro k r hr
        rw [hwr] at hr
        by_cases hk : k = f
        · subst hk
          rw [latestWrite_push_self] at hr
          exact absurd hr (by simp)
        · rw [latestWrite_push_other _ _ _ _ hk] at hr
          exact storeInv_weaken w c inv.now hc hw k r hr
      · intro k r r' h1 h2
        rw [hwr] at h2
        by_cases hk : k = f
        · subst hk
          rw [latestWrite_push_self] at h2
          exact absurd h2 (by simp)
        · rw [latestWrite_push_other _ _ _ _ hk] at h2
          rw [h1] at h2
          obtain rfl : r = r' := by injection h2
          exact le_refl _
    · constructor
      · intro k r hr
        rw [hwr] at hr
        by_cases hk : k = f
        · subst hk
          rw [latestWrite_push_self] at hr
          obtain rfl : _ = r := by injection hr
          exact ⟨le_refl _, le_refl _⟩
        · rw [latestWrite_push_other _ _ _ _ hk] at hr
          exact storeInv_weaken w c inv.now hc hw k r hr
      · intro k r r' h1 h2
        rw [hwr] at h2
        by_cases hk : k = f
        · subst hk
          rw [hn] at h1
          exact absurd h1 (by simp)
        · rw [latestWrite_push_other _ _ _ _ hk] at h2
          rw [h1] at h2
          obtain rfl : r = r' := by injection h2
          exact le_refl _
    · have hr0 := hw f r0 hs
      constructor
      · intro k r hr
        rw [hwr] at hr
        by_cases hk : k = f
        · subst hk
          rw [latestWrite_push_self] at hr
          obtain rfl : _ = r := by injection hr
          exact ⟨le_trans hr0.1 (le_trans hr0.2 hc), le_refl _⟩
        · rw [latestWrite_push_other _ _ _ _ hk] at hr
          exact storeInv_weaken w c inv.now hc hw k r hr
      · intro k r r' h1 h2
        rw [hwr] at h2
        by_cases hk : k = f
        · subst hk
          rw [latestWrite_push_self] at h2
          rw [hs] at h1
          obtain rfl : r0 = r := by injection h1
          obtain rfl : _ = r' := by injection h2
          exact le_trans hr0.2 hc
        · rw [latestWrite_push_other _ _ _ _ hk] at h2
          rw [h1] at h2
          obtain rfl : r = r' := by injection h2
          exact le_refl _

lemma runAll_inv (t : String) (invs : List Invocation) :
    ∀ (w : DDB) (c : Nat), StoreInv w c → ChainClocks c invs →
      StoreInv (runAll t w invs) (lastClock c invs) := by
  induction invs with
  | nil =>
    intro w c hw _
    exact hw
  | cons inv invs ih =>
    intro w c hw hch
    obtain ⟨h1, h2⟩ := hch
    exact ih _ inv.now (handler_step_inv t w inv c hw h1).1 h2

lemma emptyWorld_inv : StoreInv emptyWorld 0 := by
  intro k r hr
  simp [emptyWorld, latestWrite] at hr

lemma seededWorld_inv : StoreInv seededWorld 5 := by
  intro k r hr
  simp only [seededWorld, latestWrite] at hr
  split at hr
  · simp only [List.headD_cons, Option.some.injEq] at hr
    subst hr
    exact ⟨le_refl _, le_refl _⟩
  · simp at hr

/-- C8: under serial invocations with a non-decreasing clock, the record
invariant — every current record has `created ≤ last_modified` and is
stamped no later than the clock — is preserved by each invocation and by
every invocation sequence; a key's `last_modified` never decreases across
an invocation; and in every state reachable from the empty table each
record satisfies `created ≤ last_modified`. -/
theorem last_modified_monotone_invariant :
    (∀ (t : String) (w : DDB) (c : Nat) (inv : Invocation),
      StoreInv w c → c ≤ inv.now →
      StoreInv (runInvocation t w inv) inv.now) ∧
    (∀ (t : String) (w : DDB) (c : Nat) (inv : Invocation)
        (k : String) (r r' : IndexRecord),
      StoreInv w c → c ≤ inv.now →
      latestWrite w.hist k = some r →
      latestWrite (runInvocation t w inv).hist k = some r' →
      r.last_modified ≤ r'.last_modified) ∧
    (∀ (t : String) (invs : List Invocation) (w : DDB) (c : Nat),
      StoreInv w c → ChainClocks c invs →
      StoreInv (runAll t w invs) (lastClock c invs)) ∧
    (∀ (t : String) (invs : List Invocation),
      ChainClocks 0 invs →
      ∀ k r, latestWrite (runAll t emptyWorld invs).hist k = some r →
        r.created ≤ r.last_modified) := by
  refine ⟨fun t w c inv hw hc => (handler_step_inv t w inv c hw hc).1,
          fun t w c inv k r r' hw hc h1 h2 =>
            (handler_step_inv t w inv c hw hc).2 k r r' h1 h2,
          fun t invs w c hw hch => runAll_inv t invs w c hw hch,
          ?_⟩
  intro t invs hch k r hr
  exact (runAll_inv t invs emptyWorld 0 emptyWorld_inv hch k r hr).1

/-- A creation change record for `reports/q1.csv`, for witnesses. -/
def uploadRecordEx : EventRecord :=
  { eventName := "ObjectCreated:Put",
    s3 := { bucket := { name := "b" },
            object := { key := "reports/q1.csv", size := 2048 } } }

/-- An event carrying the creation record, for witnesses. -/
def uploadEvent : S3Event :=
  { Records := [uploadRecordEx] }

theorem last_modified_monotone_invariant_witness :
    (StoreInv seededWorld 5 ∧ 5 ≤ 9 ∧
     StoreInv (runInvocation "T" seededWorld ⟨uploadEvent, 0, 9⟩) 9) ∧
    (latestWrite seededWorld.hist "reports/q1.csv" =
       some { filename := "reports/q1.csv", size := 2048,
              created := 5, last_modified := 5 } ∧
     latestWrite (runInvocation "T" seededWorld
         ⟨uploadEvent, 0, 9⟩).hist "reports/q1.csv" =
       some { filename := "reports/q1.csv", size := 2048,
              created := 5, last_modified := 9 } ∧
     (5 : Nat) ≤ 9) ∧
    (ChainClocks 0 [⟨uploadEvent, 0, 3⟩, ⟨uploadEvent, 0, 9⟩] ∧
     StoreInv (runAll "T" emptyWorld
         [⟨uploadEvent, 0, 3⟩, ⟨uploadEvent, 0, 9⟩])
       (lastClock 0 [⟨uploadEvent, 0, 3⟩, ⟨uploadEvent, 0, 9⟩])) ∧
    (∀ k r, latestWrite (runAll "T" emptyWorld
         [⟨uploadEvent, 0, 3⟩, ⟨uploadEvent, 0, 9⟩]).hist k = some r →
       r.created ≤ r.last_modified) :=
  ⟨⟨seededWorld_inv, by decide,
    last_modified_monotone_invariant.1 "T" seededWorld 5
      ⟨uploadEvent, 0, 9⟩ seededWorld_inv (by decide)⟩,
   ⟨by decide, by decide,
    last_modified_monotone_invariant.2.1 "T" seededWorld 5
      ⟨uploadEvent, 0, 9⟩ "reports/q1.csv"
      { filename := "reports/q1.csv", size := 2048,
        created := 5, last_modified := 5 }
      { filename := "reports/q1.csv", size := 2048,
        created := 5, last_modified := 9 }
      seededWorld_inv (by decide) (by decide) (by decide)⟩,
   ⟨⟨by decide, by decide, trivial⟩,
    last_modified_monotone_invariant.2.2.1 "T"
      [⟨uploadEvent, 0, 3⟩, ⟨uploadEvent, 0, 9⟩] emptyWorld 0
      emptyWorld_inv ⟨by decide, by decide, trivial⟩⟩,
   last_modified_monotone_invariant.2.2.2 "T"
     [⟨uploadEvent, 0, 3⟩, ⟨uploadEvent, 0, 9⟩]
     ⟨by decide, by decide, trivial⟩⟩
